import Mathlib

set_option maxHeartbeats 1000000

/-!
Verification development for the `git reparent` tool of the git-tools
repository.  The tool replays a run of commits onto a new ancestor,
suspending on cherry-pick conflicts with a persisted state file
(`git-reparent-state`) plus a marker file (`REPARENT_HEAD`), and offers
`--continue` and `--abort` commands over that persisted state.

Go strings are modelled as lists of characters (`Str`), so that the
flat-text persistence layer (`strings.Split` on a newline,
`strings.HasPrefix`, `strings.TrimPrefix`) can be reasoned about
directly.  Git itself is an external collaborator: its answers are an
environment (`Env`) of pure functions, and every side effect the tool
performs is recorded in an action trace inside the `World` state.
-/

/-- Go strings, modelled as lists of characters. -/
abbrev Str := List Char

/-- The Go literal "ORIGINAL_BRANCH=" used by the state file layout. -/
def obKey : Str := "ORIGINAL_BRANCH=".toList

/-- The Go literal "NO_BRANCH=" used by the state file layout. -/
def nbKey : Str := "NO_BRANCH=".toList

/-- The Go literal "COMMITS=" used by the state file layout. -/
def cKey : Str := "COMMITS=".toList

/-- Embedding of Go `strings.TrimPrefix`: drop `p` from the front of `s`
when it is present, otherwise return `s` unchanged. -/
def trimPrefixGo (p s : Str) : Str :=
  if p.isPrefixOf s then s.drop p.length else s

/-- Embedding of Go `fmt.Sprintf("%t", b)`. -/
def boolGoString (b : Bool) : Str :=
  if b then "true".toList else "false".toList

/-- Embedding of Go `strings.Split(s, "\n")`: split on every newline,
keeping empty fields, so the result is always non-empty. -/
def splitNl : Str → List Str
  | [] => [[]]
  | c :: rest =>
    if c = '\n' then [] :: splitNl rest
    else
      match splitNl rest with
      | [] => [[c]]
      | r :: rs => (c :: r) :: rs

/-- The in-memory reparent state, mirroring the Go struct
`reparentState` of git-reparent. -/
structure ReparentState where
  remainingCommits : List Str
  originalBranch : Str
  noBranch : Bool
deriving Repr, DecidableEq

/-- The state-file content built by `saveReparentState` in the source:
`ORIGINAL_BRANCH=<b>\n NO_BRANCH=<t>\n COMMITS=\n` followed by one line
per commit. -/
def renderState (commits : List Str) (originalBranch : Str) (noBranch : Bool) : Str :=
  obKey ++ originalBranch ++ ['\n'] ++
  nbKey ++ boolGoString noBranch ++ ['\n'] ++
  cKey ++ ['\n'] ++
  (commits.map (fun c => c ++ ['\n'])).flatten

/-- The line-scanning loop of `loadReparentState` in the source: a fold
over the split lines with an `inCommits` flag, recognising the
`ORIGINAL_BRANCH=` and `NO_BRANCH=` key lines (in that order), the
`COMMITS=` section header, and collecting non-empty lines after it. -/
def parseStateLines : List Str → ReparentState → Bool → ReparentState
  | [], st, _ => st
  | line :: rest, st, inCommits =>
    if obKey.isPrefixOf line then
      parseStateLines rest { st with originalBranch := trimPrefixGo obKey line } inCommits
    else if nbKey.isPrefixOf line then
      parseStateLines rest { st with noBranch := trimPrefixGo nbKey line = "true".toList } inCommits
    else if line = cKey then
      parseStateLines rest st true
    else if inCommits ∧ line ≠ [] then
      parseStateLines rest { st with remainingCommits := st.remainingCommits ++ [line] } inCommits
    else
      parseStateLines rest st inCommits

/-- Parsing of the whole state-file content, as `loadReparentState`
does it: split on newlines and scan, starting from the zero value of
the Go struct. -/
def parseReparentState (content : Str) : ReparentState :=
  parseStateLines (splitNl content) ⟨[], [], false⟩ false

/-- Outcome of `common.CherryPickCommit` on one commit, combined with
the follow-up `common.HasConflicts` query the source makes on failure. -/
inductive PickOutcome
  | ok (newHead : Str)
  | conflict
  | fail
deriving Repr, DecidableEq

/-- One observable side effect (a git action) of the tool on the repository or on its
persisted files. -/
inductive GitAction
  | checkoutCommit (c : Str)
  | checkoutBranch (b : Str)
  | moveBranch (b : Str) (dest : Str)
  | writeState (content : Str)
  | removeState
  | writeMarker (c : Str)
  | removeMarker
  | cherryPick (c : Str)
  | backup
  | continuePick
  | abortPick
deriving Repr, DecidableEq

/-- Mutable repository state threaded through the tool: the optional
content of the `git-reparent-state` file, the optional content of the
`REPARENT_HEAD` marker, the current HEAD commit, and the trace of
performed actions. -/
structure World where
  stateFile : Option Str
  marker : Option Str
  head : Str
  trace : List GitAction
deriving Repr, DecidableEq

/-- Answers of the external git collaborators (the `common` package):
each field models one query or fallible mutation the tool performs. -/
structure Env where
  isGitRepo : Bool
  gitDirOk : Bool
  hasUncommitted : Bool
  refExists : String → Bool
  resolve : String → Option Str
  currentBranch : Option Str
  commitRange : String → Option (List Str)
  pick : Str → PickOutcome
  cherryPickInProgress : Bool
  continuePickOk : Bool
  abortPickOk : Bool
  moveBranchOk : Str → Str → Bool
  checkoutBranchOk : Str → Bool
  checkoutCommitOk : Str → Bool
  backupOk : Bool
  confirmResponse : String

/-- Record one action in the world trace. -/
def stamp (w : World) (a : GitAction) : World :=
  { w with trace := w.trace ++ [a] }

/-- Embedding of `createReparentHead`: write the current HEAD commit
(plus a trailing newline) to the `REPARENT_HEAD` marker file. -/
def createReparentHead (env : Env) (w : World) : World × Except String Unit :=
  if env.gitDirOk then
    (stamp { w with marker := some (w.head ++ ['\n']) } (.writeMarker w.head), .ok ())
  else (w, .error "failed to get git directory")

/-- Embedding of `saveReparentState`: write the rendered plan to the
state file, then create the marker. -/
def saveReparentState (env : Env) (commits : List Str) (originalBranch : Str)
    (noBranch : Bool) (w : World) : World × Except String Unit :=
  if env.gitDirOk then
    let content := renderState commits originalBranch noBranch
    createReparentHead env (stamp { w with stateFile := some content } (.writeState content))
  else (w, .error "failed to get git directory")

/-- Embedding of `loadReparentState`: fail when the state file is
absent, otherwise parse its content (the parse itself never fails). -/
def loadReparentState (env : Env) (w : World) : Except String ReparentState :=
  if env.gitDirOk then
    match w.stateFile with
    | none => .error "no reparent in progress"
    | some content => .ok (parseReparentState content)
  else .error "failed to get git directory"

/-- Embedding of `updateReparentState`: reload the persisted state and
re-save it with the new remaining-commit list. -/
def updateReparentState (env : Env) (remainingCommits : List Str) (w : World) :
    World × Except String Unit :=
  match loadReparentState env w with
  | .error e => (w, .error e)
  | .ok st => saveReparentState env remainingCommits st.originalBranch st.noBranch w

/-- Embedding of `removeReparentHead`: delete the marker file when it
exists; absence is not an error. -/
def removeReparentHead (env : Env) (w : World) : World × Except String Unit :=
  if env.gitDirOk then
    match w.marker with
    | none => (w, .ok ())
    | some _ => (stamp { w with marker := none } .removeMarker, .ok ())
  else (w, .error "failed to get git directory")

/-- Embedding of `cleanupReparentState`: delete the state file when it
exists, then remove the marker. -/
def cleanupReparentState (env : Env) (w : World) : World × Except String Unit :=
  if env.gitDirOk then
    let w :=
      match w.stateFile with
      | none => w
      | some _ => stamp { w with stateFile := none } .removeState
    removeReparentHead env w
  else (w, .error "failed to get git directory")

/-- Embedding of `isReparentInProgress`: the marker file exists (and
the git directory is reachable). -/
def isReparentInProgress (env : Env) (w : World) : Bool :=
  env.gitDirOk && w.marker.isSome

/-- Embedding of `applyCherryPicks`: replay the list front to back; on
a conflict, persist the commits after the conflicting one and report;
on a non-conflict failure, stop fatally. -/
def applyCherryPicks (env : Env) : List Str → World → World × Except String Unit
  | [], w => (w, .ok ())
  | c :: rest, w =>
    let w := stamp w (.cherryPick c)
    match env.pick c with
    | .ok newHead => applyCherryPicks env rest { w with head := newHead }
    | .conflict =>
      match updateReparentState env rest w with
      | (w', .ok _) => (w', .error "cherry-pick conflicts require manual resolution")
      | (w', .error e) => (w', .error ("failed to update reparent state: " ++ e))
    | .fail => (w, .error "cherry-pick failed")

/-- Embedding of `finishReparent`: read the new tip, clean up the
persisted state (failure only warned), then unless no-branch move the
original branch to the tip and check it out. -/
def finishReparent (env : Env) (originalBranch : Str) (noBranch : Bool) (w : World) :
    World × Except String Unit :=
  let newHead := w.head
  let w := (cleanupReparentState env w).1
  if !noBranch then
    if env.moveBranchOk originalBranch newHead then
      let w := stamp w (.moveBranch originalBranch newHead)
      if env.checkoutBranchOk originalBranch then
        (stamp w (.checkoutBranch originalBranch), .ok ())
      else (w, .error "failed to checkout branch")
    else (w, .error "failed to move branch")
  else (w, .ok ())

/-- The final two statements shared by `runReparent` and
`handleContinue` in the source: replay the commit list, propagating a
replay failure, then finalize. -/
def replayAndFinish (env : Env) (commits : List Str) (originalBranch : Str)
    (noBranch : Bool) (w : World) : World × Except String Unit :=
  match applyCherryPicks env commits w with
  | (w, .error e) => (w, .error e)
  | (w, .ok _) => finishReparent env originalBranch noBranch w

/-- The save-replay-finalize tail of `runReparent` (source lines
building on `saveReparentState`, `applyCherryPicks`, `finishReparent`):
persist the plan, wrapping a save failure, then replay and finalize. -/
def saveAndReplay (env : Env) (commits : List Str) (originalBranch : Str)
    (noBranch : Bool) (w : World) : World × Except String Unit :=
  match saveReparentState env commits originalBranch noBranch w with
  | (w, .error e) => (w, .error ("failed to save reparent state: " ++ e))
  | (w, .ok _) => replayAndFinish env commits originalBranch noBranch w

/-- Options of the start command, mirroring the Go struct
`reparentOptions` (the fields the start path reads). -/
structure ReparentOptions where
  parentRef : String := ""
  numberOfCommits : Nat := 1
  fromRef : String := ""
  shouldBackup : Bool := false
  shouldConfirm : Bool := false
  noBranch : Bool := false
deriving Repr, DecidableEq

/-- Embedding of `getCommitsToReparent`: build the rev range either
from the explicit boundary or from the commit count, and enumerate it
oldest first via the collaborator. -/
def getCommitsToReparent (env : Env) (opts : ReparentOptions) : Except String (List Str) :=
  if opts.fromRef ≠ "" then
    if !env.refExists opts.fromRef then
      .error ("from reference '" ++ opts.fromRef ++ "' does not exist")
    else
      match env.commitRange (opts.fromRef ++ "..HEAD") with
      | none => .error "failed to list commits"
      | some cs => .ok cs
  else
    match env.commitRange ("HEAD~" ++ toString opts.numberOfCommits ++ "..HEAD") with
    | none => .error "failed to list commits"
    | some cs => .ok cs

/-- Embedding of `runReparent`: validate preconditions, optionally back
up, compute the plan, optionally confirm, check out the new parent
detached, persist the plan, replay, and finalize. -/
def runReparent (env : Env) (opts : ReparentOptions) (w : World) :
    World × Except String Unit :=
  if env.hasUncommitted then
    (w, .error "there are uncommitted changes. Please commit or stash them first")
  else if !env.refExists opts.parentRef then
    (w, .error ("parent reference '" ++ opts.parentRef ++ "' does not exist"))
  else
    let bres : World × Except String Unit :=
      if opts.shouldBackup then
        if env.backupOk then (stamp w .backup, .ok ())
        else (w, .error "failed to create backup")
      else (w, .ok ())
    match bres with
    | (w, .error e) => (w, .error e)
    | (w, .ok _) =>
      match env.resolve opts.parentRef with
      | none => (w, .error "failed to get parent commit hash")
      | some parentCommit =>
        match env.currentBranch with
        | none => (w, .error "failed to get current branch")
        | some currentBranch =>
          match getCommitsToReparent env opts with
          | .error e => (w, .error ("failed to get commits to reparent: " ++ e))
          | .ok commits =>
            if commits = [] then (w, .error "no commits to reparent")
            else if opts.shouldConfirm ∧
                env.confirmResponse.toLower ≠ "y" ∧ env.confirmResponse.toLower ≠ "yes" then
              (w, .ok ())
            else if env.checkoutCommitOk parentCommit then
              saveAndReplay env commits currentBranch opts.noBranch
                (stamp { w with head := parentCommit } (.checkoutCommit parentCommit))
            else (w, .error "failed to checkout parent commit")

/-- Embedding of `handleContinue` (exit code as second component):
require an operation in progress, load the state, finish a pending
cherry-pick session if any, replay the remaining list, finalize. -/
def handleContinue (env : Env) (w : World) : World × Nat :=
  if !isReparentInProgress env w then (w, 1)
  else
    match loadReparentState env w with
    | .error _ => (w, 1)
    | .ok state =>
      let cres : World × Except String Unit :=
        if env.cherryPickInProgress then
          let w := stamp w .continuePick
          if env.continuePickOk then (w, .ok ())
          else (w, .error "failed to continue cherry-pick")
        else (w, .ok ())
      match cres with
      | (w, .error _) => (w, 1)
      | (w, .ok _) =>
        match replayAndFinish env state.remainingCommits state.originalBranch state.noBranch w with
        | (w, .error _) => (w, 1)
        | (w, .ok _) => (w, 0)

/-- Embedding of `handleAbort` (exit code as second component):
require an operation in progress, load the state, abort a pending
cherry-pick best-effort, restore the original branch (fatal on
failure, before any cleanup), then clear the persisted state. -/
def handleAbort (env : Env) (w : World) : World × Nat :=
  if !isReparentInProgress env w then (w, 1)
  else
    match loadReparentState env w with
    | .error _ => (w, 1)
    | .ok state =>
      let w := if env.cherryPickInProgress then stamp w .abortPick else w
      if env.checkoutBranchOk state.originalBranch then
        let w := stamp w (.checkoutBranch state.originalBranch)
        ((cleanupReparentState env w).1, 0)
      else (w, 1)

/-- Decimal digit scan of `strconv.Atoi`: every character must be a
digit; the accumulated value is returned. -/
def parseNatDigits : List Char → Nat → Option Nat
  | [], acc => some acc
  | c :: rest, acc =>
    if '0' ≤ c ∧ c ≤ '9' then parseNatDigits rest (acc * 10 + (c.toNat - '0'.toNat))
    else none

/-- Embedding of Go `strconv.Atoi` on decimal strings (an optional
sign followed by at least one digit; integer range errors are not
modelled). -/
def atoiGo (v : String) : Option Int :=
  match v.toList with
  | [] => none
  | '+' :: rest =>
    if rest = [] then none else (parseNatDigits rest 0).map Int.ofNat
  | '-' :: rest =>
    if rest = [] then none else (parseNatDigits rest 0).map (fun n => -(n : Int))
  | cs => (parseNatDigits cs 0).map Int.ofNat

/-- Embedding of Go `strconv.Atoi` combined with the `num < 1`
validation of the `--number` flag. -/
def atoiPos (v : String) : Option Nat :=
  match atoiGo v with
  | none => none
  | some n => if n < 1 then none else some n.toNat

/-- Result of argument parsing: parsed options, a fatal message, or
the help path (which exits 0 in the source). -/
inductive ParseOut
  | ok (opts : ReparentOptions)
  | err (msg : String)
  | help
deriving Repr, DecidableEq

/-- The flag-scanning loop of `parseArgs`, consuming option values. -/
def parseLoop : List String → ReparentOptions → ParseOut
  | [], opts => .ok opts
  | arg :: rest, opts =>
    if arg = "--parent" ∨ arg = "-p" then
      match rest with
      | [] => .err "--parent requires a value"
      | v :: rest' => parseLoop rest' { opts with parentRef := v }
    else if arg = "--number" ∨ arg = "-n" then
      match rest with
      | [] => .err "--number requires a value"
      | v :: rest' =>
        match atoiPos v with
        | none => .err "--number must be a positive integer"
        | some num => parseLoop rest' { opts with numberOfCommits := num }
    else if arg = "--from" then
      match rest with
      | [] => .err "--from requires a value"
      | v :: rest' => parseLoop rest' { opts with fromRef := v }
    else if arg = "--backup" then parseLoop rest { opts with shouldBackup := true }
    else if arg = "--confirm" then parseLoop rest { opts with shouldConfirm := true }
    else if arg = "--no-branch" then parseLoop rest { opts with noBranch := true }
    else if arg = "--help" ∨ arg = "-h" then .help
    else .err ("unknown option: " ++ arg)

/-- Embedding of `parseArgs`: scan the flags, then require `--parent`
and reject `--from` combined with a non-default `--number`. -/
def parseArgs (args : List String) : ParseOut :=
  match parseLoop args {} with
  | .ok opts =>
    if opts.parentRef = "" then .err "--parent is required"
    else if opts.fromRef ≠ "" ∧ opts.numberOfCommits ≠ 1 then
      .err "cannot specify both --number and --from"
    else .ok opts
  | other => other

/-- Embedding of `main` over the argument vector `os.Args[1:]`,
returning the final world and the process exit code. -/
def mainRun (env : Env) (argv : List String) (w : World) : World × Nat :=
  if !env.isGitRepo then (w, 1)
  else if argv.head? = some "--continue" then handleContinue env w
  else if argv.head? = some "--abort" then handleAbort env w
  else
    match parseArgs argv with
    | .help => (w, 0)
    | .err _ => (w, 1)
    | .ok opts =>
      match runReparent env opts w with
      | (w', .error _) => (w', 1)
      | (w', .ok _) => (w', 0)

/-- A commit identifier as produced by git: non-empty, newline free,
and not colliding with the key lines of the state-file layout. -/
def goodCommitId (c : Str) : Prop :=
  c ≠ [] ∧ '\n' ∉ c ∧ obKey.isPrefixOf c = false ∧ nbKey.isPrefixOf c = false ∧ c ≠ cKey

instance (c : Str) : Decidable (goodCommitId c) := by
  unfold goodCommitId; infer_instance

theorem splitNl_append (a b : Str) (h : '\n' ∉ a) :
    splitNl (a ++ '\n' :: b) = a :: splitNl b := by
  induction a with
  | nil => simp [splitNl]
  | cons c rest ih =>
    have hc : ¬ c = '\n' := fun hc => h (hc ▸ List.mem_cons_self c rest)
    have hr : '\n' ∉ rest := fun hr => h (List.mem_cons_of_mem c hr)
    simp only [List.cons_append, splitNl, if_neg hc, List.append_eq]
    rw [ih hr]

theorem splitNl_flatten (cs : List Str) (h : ∀ c ∈ cs, '\n' ∉ c) :
    splitNl ((cs.map (fun c => c ++ ['\n'])).flatten) = cs ++ [[]] := by
  induction cs with
  | nil => simp [splitNl]
  | cons c rest ih =>
    have hc : '\n' ∉ c := h c (List.mem_cons_self c rest)
    have hr : ∀ x ∈ rest, '\n' ∉ x := fun x hx => h x (List.mem_cons_of_mem c hx)
    simp only [List.map_cons, List.flatten_cons, List.append_assoc, List.singleton_append]
    rw [splitNl_append c _ hc, ih hr]
    simp

theorem isPrefixOf_append_self (p x : Str) : p.isPrefixOf (p ++ x) = true := by
  simp

theorem isPrefixOf_cons_ne (a b : Char) (x y : Str) (h : a ≠ b) :
    (a :: x).isPrefixOf (b :: y) = false := by
  simp [List.isPrefixOf_cons₂, h]

theorem trimPrefixGo_append (p x : Str) : trimPrefixGo p (p ++ x) = x := by
  simp [trimPrefixGo, List.drop_left]

theorem obKey_cons : obKey = 'O' :: "RIGINAL_BRANCH=".toList := rfl

theorem nbKey_cons : nbKey = 'N' :: "O_BRANCH=".toList := rfl

theorem cKey_cons : cKey = 'C' :: "OMMITS=".toList := rfl

theorem obKey_not_isPrefixOf_nb (x : Str) : obKey.isPrefixOf (nbKey ++ x) = false := by
  rw [obKey_cons, nbKey_cons, List.cons_append]
  exact isPrefixOf_cons_ne _ _ _ _ (by decide)

theorem obKey_not_isPrefixOf_cKey : obKey.isPrefixOf cKey = false := by decide

theorem nbKey_not_isPrefixOf_cKey : nbKey.isPrefixOf cKey = false := by decide

theorem obKey_not_isPrefixOf_nil : obKey.isPrefixOf [] = false := by decide

theorem nbKey_not_isPrefixOf_nil : nbKey.isPrefixOf [] = false := by decide

theorem boolGoString_no_newline (b : Bool) : '\n' ∉ boolGoString b := by
  cases b <;> decide

theorem decide_boolGoString (b : Bool) :
    decide (boolGoString b = ['t', 'r', 'u', 'e']) = b := by
  cases b <;> decide

theorem parseStateLines_commits (cs : List Str) (st : ReparentState)
    (h : ∀ c ∈ cs, goodCommitId c) :
    parseStateLines (cs ++ [[]]) st true =
      { st with remainingCommits := st.remainingCommits ++ cs } := by
  induction cs generalizing st with
  | nil =>
    simp [parseStateLines, obKey_not_isPrefixOf_nil, nbKey_not_isPrefixOf_nil,
      show ¬ ([] : Str) = cKey by decide]
  | cons c rest ih =>
    obtain ⟨hne, -, hob, hnb, hck⟩ := h c (List.mem_cons_self c rest)
    have hr : ∀ x ∈ rest, goodCommitId x := fun x hx => h x (List.mem_cons_of_mem c hx)
    simp only [List.cons_append, parseStateLines, hob, hnb, Bool.false_eq_true, if_false,
      List.append_eq]
    rw [if_neg hck, if_pos (by exact ⟨trivial, hne⟩), ih _ hr]
    simp

theorem splitNl_render (commits : List Str) (branch : Str) (nb : Bool)
    (hbr : '\n' ∉ branch) (hc : ∀ c ∈ commits, '\n' ∉ c) :
    splitNl (renderState commits branch nb) =
      (obKey ++ branch) :: (nbKey ++ boolGoString nb) :: cKey :: (commits ++ [[]]) := by
  have h1 : '\n' ∉ obKey ++ branch := by
    intro hmem
    rcases List.mem_append.mp hmem with h | h
    · revert h; decide
    · exact hbr h
  have h2 : '\n' ∉ nbKey ++ boolGoString nb := by
    intro hmem
    rcases List.mem_append.mp hmem with h | h
    · revert h; decide
    · exact boolGoString_no_newline nb h
  have h3 : '\n' ∉ cKey := by decide
  calc splitNl (renderState commits branch nb)
      = splitNl ((obKey ++ branch) ++ '\n' :: ((nbKey ++ boolGoString nb) ++ '\n' ::
          (cKey ++ '\n' :: (commits.map (fun c => c ++ ['\n'])).flatten))) := by
        simp [renderState, List.append_assoc]
    _ = (obKey ++ branch) :: (nbKey ++ boolGoString nb) :: cKey ::
          (commits ++ [[]]) := by
        rw [splitNl_append _ _ h1, splitNl_append _ _ h2, splitNl_append _ _ h3,
          splitNl_flatten commits hc]

/-- Round trip of the flat state-file layout: parsing a rendered plan
recovers the plan, provided the branch name is newline free and the
commit identifiers are well formed. -/
theorem parse_renderState (commits : List Str) (branch : Str) (nb : Bool)
    (hbr : '\n' ∉ branch) (hc : ∀ c ∈ commits, goodCommitId c) :
    parseReparentState (renderState commits branch nb) = ⟨commits, branch, nb⟩ := by
  have hnl : ∀ c ∈ commits, '\n' ∉ c := fun c h => ((hc c h).2.1)
  unfold parseReparentState
  rw [splitNl_render commits branch nb hbr hnl]
  simp only [parseStateLines, isPrefixOf_append_self, if_pos rfl, trimPrefixGo_append,
    obKey_not_isPrefixOf_nb, Bool.false_eq_true, if_false,
    obKey_not_isPrefixOf_cKey, nbKey_not_isPrefixOf_cKey, if_pos rfl]
  rw [parseStateLines_commits commits _ hc]
  simp [decide_boolGoString]

/-- The commits attempted by the recorded cherry-pick actions of a
trace, in order. -/
def picksOf (t : List GitAction) : List Str :=
  t.filterMap fun a =>
    match a with
    | .cherryPick c => some c
    | _ => none

@[simp] theorem picksOf_nil : picksOf [] = [] := rfl

@[simp] theorem picksOf_cons_cherryPick (c : Str) (t : List GitAction) :
    picksOf (.cherryPick c :: t) = c :: picksOf t := rfl

@[simp] theorem picksOf_cons_checkoutCommit (c : Str) (t : List GitAction) :
    picksOf (.checkoutCommit c :: t) = picksOf t := rfl

@[simp] theorem picksOf_cons_checkoutBranch (b : Str) (t : List GitAction) :
    picksOf (.checkoutBranch b :: t) = picksOf t := rfl

@[simp] theorem picksOf_cons_moveBranch (b d : Str) (t : List GitAction) :
    picksOf (.moveBranch b d :: t) = picksOf t := rfl

@[simp] theorem picksOf_cons_writeState (c : Str) (t : List GitAction) :
    picksOf (.writeState c :: t) = picksOf t := rfl

@[simp] theorem picksOf_cons_removeState (t : List GitAction) :
    picksOf (.removeState :: t) = picksOf t := rfl

@[simp] theorem picksOf_cons_writeMarker (c : Str) (t : List GitAction) :
    picksOf (.writeMarker c :: t) = picksOf t := rfl

@[simp] theorem picksOf_cons_removeMarker (t : List GitAction) :
    picksOf (.removeMarker :: t) = picksOf t := rfl

@[simp] theorem picksOf_cons_backup (t : List GitAction) :
    picksOf (.backup :: t) = picksOf t := rfl

@[simp] theorem picksOf_cons_continuePick (t : List GitAction) :
    picksOf (.continuePick :: t) = picksOf t := rfl

@[simp] theorem picksOf_cons_abortPick (t : List GitAction) :
    picksOf (.abortPick :: t) = picksOf t := rfl

@[simp] theorem picksOf_append (t₁ t₂ : List GitAction) :
    picksOf (t₁ ++ t₂) = picksOf t₁ ++ picksOf t₂ := by
  simp [picksOf]

theorem picksOf_map_cherryPick (cs : List Str) :
    picksOf (cs.map GitAction.cherryPick) = cs := by
  induction cs with
  | nil => rfl
  | cons c rest ih => simp only [List.map_cons, picksOf_cons_cherryPick, ih]

theorem createReparentHead_trace (env : Env) (w : World) :
    ∃ t, (createReparentHead env w).1.trace = w.trace ++ t ∧ picksOf t = [] := by
  by_cases h : env.gitDirOk
  · exact ⟨[.writeMarker w.head], by simp [createReparentHead, h, stamp]⟩
  · exact ⟨[], by simp [createReparentHead, h]⟩

theorem saveReparentState_trace (env : Env) (cs : List Str) (b : Str) (nb : Bool) (w : World) :
    ∃ t, (saveReparentState env cs b nb w).1.trace = w.trace ++ t ∧ picksOf t = [] := by
  by_cases h : env.gitDirOk
  · refine ⟨[.writeState (renderState cs b nb), .writeMarker w.head], ?_⟩
    simp [saveReparentState, createReparentHead, h, stamp]
  · exact ⟨[], by simp [saveReparentState, h]⟩

theorem updateReparentState_trace (env : Env) (cs : List Str) (w : World) :
    ∃ t, (updateReparentState env cs w).1.trace = w.trace ++ t ∧ picksOf t = [] := by
  unfold updateReparentState
  cases h : loadReparentState env w with
  | error e => exact ⟨[], by simp⟩
  | ok st => exact saveReparentState_trace env cs st.originalBranch st.noBranch w

theorem removeReparentHead_trace (env : Env) (w : World) :
    ∃ t, (removeReparentHead env w).1.trace = w.trace ++ t ∧ picksOf t = [] := by
  by_cases h : env.gitDirOk
  · cases hm : w.marker with
    | none => exact ⟨[], by simp [removeReparentHead, h, hm]⟩
    | some x => exact ⟨[.removeMarker], by simp [removeReparentHead, h, hm, stamp]⟩
  · exact ⟨[], by simp [removeReparentHead, h]⟩

theorem cleanupReparentState_trace (env : Env) (w : World) :
    ∃ t, (cleanupReparentState env w).1.trace = w.trace ++ t ∧ picksOf t = [] := by
  by_cases h : env.gitDirOk
  · cases hs : w.stateFile with
    | none =>
      obtain ⟨t, ht, hp⟩ := removeReparentHead_trace env w
      exact ⟨t, by simp [cleanupReparentState, h, hs, ht, hp]⟩
    | some x =>
      obtain ⟨t, ht, hp⟩ :=
        removeReparentHead_trace env ⟨none, w.marker, w.head, w.trace ++ [.removeState]⟩
      refine ⟨.removeState :: t, ?_, by simp [hp]⟩
      simp only [cleanupReparentState, h, if_true, hs, stamp]
      rw [ht]
      simp
  · exact ⟨[], by simp [cleanupReparentState, h]⟩

theorem finishReparent_trace (env : Env) (b : Str) (nb : Bool) (w : World) :
    ∃ t, (finishReparent env b nb w).1.trace = w.trace ++ t ∧ picksOf t = [] := by
  obtain ⟨t, ht, hp⟩ := cleanupReparentState_trace env w
  unfold finishReparent
  by_cases hnb : (!nb) = true
  · by_cases hmv : env.moveBranchOk b w.head
    · by_cases hco : env.checkoutBranchOk b
      · refine ⟨t ++ [.moveBranch b w.head, .checkoutBranch b], ?_, by simp [hp]⟩
        simp [hnb, hmv, hco, stamp, ht]
      · refine ⟨t ++ [.moveBranch b w.head], ?_, by simp [hp]⟩
        simp [hnb, hmv, hco, stamp, ht]
    · exact ⟨t, by simp [hnb, hmv, ht, hp]⟩
  · exact ⟨t, by simp [hnb, ht, hp]⟩

theorem applyCherryPicks_mono_trace (env : Env) (l : List Str) :
    ∀ w, ∃ t, (applyCherryPicks env l w).1.trace = w.trace ++ t := by
  induction l with
  | nil => exact fun w => ⟨[], by simp [applyCherryPicks]⟩
  | cons d rest ih =>
    intro w
    simp only [applyCherryPicks]
    cases hp : env.pick d with
    | ok nh =>
      obtain ⟨t, ht⟩ := ih ⟨w.stateFile, w.marker, nh, w.trace ++ [.cherryPick d]⟩
      refine ⟨.cherryPick d :: t, ?_⟩
      simp only [stamp]
      rw [ht]
      simp
    | conflict =>
      obtain ⟨t, ht, -⟩ := updateReparentState_trace env rest (stamp w (.cherryPick d))
      rcases hu : updateReparentState env rest (stamp w (.cherryPick d)) with ⟨wu, ru⟩
      rw [hu] at ht
      simp only at ht
      cases ru with
      | error e =>
        refine ⟨.cherryPick d :: t, ?_⟩
        simp only [hu]
        rw [ht]
        simp [stamp]
      | ok u =>
        refine ⟨.cherryPick d :: t, ?_⟩
        simp only [hu]
        rw [ht]
        simp [stamp]
    | fail => exact ⟨[.cherryPick d], by simp [stamp]⟩

theorem applyCherryPicks_cons_trace (env : Env) (c : Str) (cs : List Str) (w : World) :
    ∃ t, (applyCherryPicks env (c :: cs) w).1.trace =
      w.trace ++ GitAction.cherryPick c :: t := by
  simp only [applyCherryPicks]
  cases hp : env.pick c with
  | ok nh =>
    obtain ⟨t, ht⟩ := applyCherryPicks_mono_trace env cs
      ⟨w.stateFile, w.marker, nh, w.trace ++ [.cherryPick c]⟩
    refine ⟨t, ?_⟩
    simp only [stamp]
    rw [ht]
    simp
  | conflict =>
    obtain ⟨t, ht, -⟩ := updateReparentState_trace env cs (stamp w (.cherryPick c))
    rcases hu : updateReparentState env cs (stamp w (.cherryPick c)) with ⟨wu, ru⟩
    rw [hu] at ht
    simp only at ht
    cases ru with
    | error e =>
      refine ⟨t, ?_⟩
      simp only [hu]
      rw [ht]
      simp [stamp]
    | ok u =>
      refine ⟨t, ?_⟩
      simp only [hu]
      rw [ht]
      simp [stamp]
  | fail => exact ⟨[], by simp [stamp]⟩

theorem replayAndFinish_cons_trace (env : Env) (c : Str) (cs : List Str) (b : Str)
    (nb : Bool) (w : World) :
    ∃ t, (replayAndFinish env (c :: cs) b nb w).1.trace =
      w.trace ++ GitAction.cherryPick c :: t := by
  unfold replayAndFinish
  obtain ⟨t₁, ht₁⟩ := applyCherryPicks_cons_trace env c cs w
  rcases hA : applyCherryPicks env (c :: cs) w with ⟨wA, rA⟩
  rw [hA] at ht₁
  simp only at ht₁
  cases rA with
  | error e => exact ⟨t₁, by simp [ht₁]⟩
  | ok u =>
    obtain ⟨t₂, ht₂, -⟩ := finishReparent_trace env b nb wA
    refine ⟨t₁ ++ t₂, ?_⟩
    simp only []
    rw [ht₂, ht₁]
    simp

theorem applyCherryPicks_ok (env : Env) (cs : List Str)
    (h : ∀ c ∈ cs, ∃ nh, env.pick c = .ok nh) :
    ∀ w, ∃ hd, applyCherryPicks env cs w =
      (⟨w.stateFile, w.marker, hd, w.trace ++ cs.map GitAction.cherryPick⟩, .ok ()) := by
  induction cs with
  | nil => exact fun w => ⟨w.head, by simp [applyCherryPicks]⟩
  | cons c rest ih =>
    intro w
    obtain ⟨nh, hnh⟩ := h c (List.mem_cons_self c rest)
    obtain ⟨hd, ih'⟩ := ih (fun x hx => h x (List.mem_cons_of_mem c hx))
      ⟨w.stateFile, w.marker, nh, w.trace ++ [.cherryPick c]⟩
    refine ⟨hd, ?_⟩
    simp only [applyCherryPicks, stamp, hnh]
    rw [ih']
    simp

theorem applyCherryPicks_append_ok (env : Env) (done : List Str)
    (h : ∀ d ∈ done, ∃ nh, env.pick d = .ok nh) (l : List Str) :
    ∀ w, ∃ hd, applyCherryPicks env (done ++ l) w =
      applyCherryPicks env l
        ⟨w.stateFile, w.marker, hd, w.trace ++ done.map GitAction.cherryPick⟩ := by
  induction done with
  | nil => exact fun w => ⟨w.head, by simp⟩
  | cons d rest ih =>
    intro w
    obtain ⟨nh, hnh⟩ := h d (List.mem_cons_self d rest)
    obtain ⟨hd, ih'⟩ := ih (fun x hx => h x (List.mem_cons_of_mem d hx))
      ⟨w.stateFile, w.marker, nh, w.trace ++ [.cherryPick d]⟩
    refine ⟨hd, ?_⟩
    simp only [List.cons_append, applyCherryPicks, stamp, hnh, List.append_eq]
    rw [ih']
    simp

theorem applyCherryPicks_conflict_head (env : Env) (c : Str) (rest full : List Str)
    (br : Str) (nb : Bool) (w : World)
    (hgd : env.gitDirOk = true) (hpick : env.pick c = .conflict)
    (hsf : w.stateFile = some (renderState full br nb))
    (hbr : '\n' ∉ br) (hwf : ∀ x ∈ full, goodCommitId x) :
    applyCherryPicks env (c :: rest) w =
      (⟨some (renderState rest br nb), some (w.head ++ ['\n']), w.head,
        w.trace ++ [.cherryPick c, .writeState (renderState rest br nb),
          .writeMarker w.head]⟩,
       .error "cherry-pick conflicts require manual resolution") := by
  have hload : loadReparentState env
      ⟨w.stateFile, w.marker, w.head, w.trace ++ [.cherryPick c]⟩ =
      .ok ⟨full, br, nb⟩ := by
    simp [loadReparentState, hgd, hsf, parse_renderState full br nb hbr hwf]
  simp only [applyCherryPicks, hpick, updateReparentState, saveReparentState,
    hgd, if_true, createReparentHead, stamp]
  simp only [hload]
  simp

theorem runReparent_reaches_replay (env : Env) (opts : ReparentOptions) (w : World)
    (p br : Str) (commits : List Str)
    (h1 : env.hasUncommitted = false)
    (h2 : env.refExists opts.parentRef = true)
    (hbk : opts.shouldBackup = true → env.backupOk = true)
    (h4 : env.resolve opts.parentRef = some p)
    (h5 : env.currentBranch = some br)
    (h6 : getCommitsToReparent env opts = .ok commits)
    (hne : commits ≠ [])
    (h7 : opts.shouldConfirm = true →
      env.confirmResponse.toLower = "y" ∨ env.confirmResponse.toLower = "yes")
    (h8 : env.checkoutCommitOk p = true)
    (h9 : env.gitDirOk = true) :
    runReparent env opts w = replayAndFinish env commits br opts.noBranch
      ⟨some (renderState commits br opts.noBranch), some (p ++ ['\n']), p,
        w.trace ++ (if opts.shouldBackup then [GitAction.backup] else []) ++
          [.checkoutCommit p, .writeState (renderState commits br opts.noBranch),
           .writeMarker p]⟩ := by
  have hcf : ¬(opts.shouldConfirm = true ∧ env.confirmResponse.toLower ≠ "y" ∧
      env.confirmResponse.toLower ≠ "yes") := by
    rintro ⟨hc, hy, hyes⟩
    rcases h7 hc with h | h
    · exact hy h
    · exact hyes h
  by_cases hb : opts.shouldBackup = true
  · have hbok := hbk hb
    simp only [runReparent, saveAndReplay, h1, h2, hb, hbok, h4, h5, h6, h8, h9, if_true,
      Bool.false_eq_true, if_false, if_neg hne, if_neg hcf, saveReparentState,
      createReparentHead, stamp]
    simp [List.append_assoc]
  · simp only [runReparent, saveAndReplay, h1, h2, hb, h4, h5, h6, h8, h9, if_true,
      Bool.false_eq_true, if_false, if_neg hne, if_neg hcf, saveReparentState,
      createReparentHead, stamp]
    simp [List.append_assoc, hb]

/-- The §3 invariant: the state file exists exactly when the marker
file exists. -/
def stateMarkerLinked (w : World) : Prop :=
  w.stateFile.isSome = w.marker.isSome

instance (w : World) : Decidable (stateMarkerLinked w) := by
  unfold stateMarkerLinked; infer_instance

theorem stamp_linked (w : World) (a : GitAction) (h : stateMarkerLinked w) :
    stateMarkerLinked (stamp w a) := h

theorem saveReparentState_linked (env : Env) (cs : List Str) (b : Str) (nb : Bool)
    (w : World) (h : stateMarkerLinked w) :
    stateMarkerLinked (saveReparentState env cs b nb w).1 := by
  by_cases hgd : env.gitDirOk = true
  · simp [saveReparentState, createReparentHead, hgd, stamp, stateMarkerLinked]
  · simp only [saveReparentState, if_neg hgd]
    exact h

theorem updateReparentState_linked (env : Env) (cs : List Str) (w : World)
    (h : stateMarkerLinked w) : stateMarkerLinked (updateReparentState env cs w).1 := by
  unfold updateReparentState
  cases hld : loadReparentState env w with
  | error e => exact h
  | ok st => exact saveReparentState_linked env cs st.originalBranch st.noBranch w h

theorem cleanupReparentState_linked (env : Env) (w : World) (h : stateMarkerLinked w) :
    stateMarkerLinked (cleanupReparentState env w).1 := by
  by_cases hgd : env.gitDirOk = true
  · cases hs : w.stateFile with
    | none =>
      cases hm : w.marker with
      | none => simp [cleanupReparentState, removeReparentHead, hgd, hs, hm, stateMarkerLinked]
      | some x =>
        simp [cleanupReparentState, removeReparentHead, hgd, hs, hm, stamp, stateMarkerLinked]
    | some y =>
      cases hm : w.marker with
      | none => simp [cleanupReparentState, removeReparentHead, hgd, hs, hm, stamp, stateMarkerLinked]
      | some x =>
        simp [cleanupReparentState, removeReparentHead, hgd, hs, hm, stamp, stateMarkerLinked]
  · simp only [cleanupReparentState, if_neg hgd]
    exact h

theorem finishReparent_linked (env : Env) (b : Str) (nb : Bool) (w : World)
    (h : stateMarkerLinked w) : stateMarkerLinked (finishReparent env b nb w).1 := by
  have hcl := cleanupReparentState_linked env w h
  unfold finishReparent
  by_cases hnb : (!nb) = true
  · by_cases hmv : env.moveBranchOk b w.head = true
    · by_cases hco : env.checkoutBranchOk b = true
      · simp only [hnb, hmv, hco, if_true]
        exact hcl
      · simp only [hnb, hmv, if_true, hco, Bool.false_eq_true, if_false]
        exact hcl
    · simp only [hnb, hmv, if_true, Bool.false_eq_true, if_false]
      exact hcl
  · simp only [hnb, Bool.false_eq_true, if_false]
    exact hcl

theorem applyCherryPicks_linked (env : Env) (cs : List Str) :
    ∀ w, stateMarkerLinked w → stateMarkerLinked (applyCherryPicks env cs w).1 := by
  induction cs with
  | nil => exact fun w h => h
  | cons c rest ih =>
    intro w h
    simp only [applyCherryPicks]
    cases hp : env.pick c with
    | ok nh =>
      exact ih { stamp w (.cherryPick c) with head := nh } h
    | conflict =>
      have hu := updateReparentState_linked env rest (stamp w (.cherryPick c)) h
      rcases hr : updateReparentState env rest (stamp w (.cherryPick c)) with ⟨wu, ru⟩
      rw [hr] at hu
      cases ru with
      | error e => exact hu
      | ok u => exact hu
    | fail => exact h

theorem replayAndFinish_linked (env : Env) (cs : List Str) (b : Str) (nb : Bool)
    (w : World) (h : stateMarkerLinked w) :
    stateMarkerLinked (replayAndFinish env cs b nb w).1 := by
  unfold replayAndFinish
  have ha := applyCherryPicks_linked env cs w h
  rcases hr : applyCherryPicks env cs w with ⟨wa, ra⟩
  rw [hr] at ha
  cases ra with
  | error e => exact ha
  | ok u => exact finishReparent_linked env b nb wa ha

theorem saveAndReplay_linked (env : Env) (cs : List Str) (b : Str) (nb : Bool)
    (w : World) (h : stateMarkerLinked w) :
    stateMarkerLinked (saveAndReplay env cs b nb w).1 := by
  unfold saveAndReplay
  have hs := saveReparentState_linked env cs b nb w h
  rcases hr : saveReparentState env cs b nb w with ⟨ws, rs⟩
  rw [hr] at hs
  cases rs with
  | error e => exact hs
  | ok u => exact replayAndFinish_linked env cs b nb ws hs

theorem runReparent_linked (env : Env) (opts : ReparentOptions) (w : World)
    (h : stateMarkerLinked w) : stateMarkerLinked (runReparent env opts w).1 := by
  unfold runReparent
  by_cases h1 : env.hasUncommitted = true
  · simp only [h1, if_true]
    exact h
  simp only [h1, Bool.false_eq_true, if_false]
  by_cases h2 : (!env.refExists opts.parentRef) = true
  · simp only [h2, if_true]
    exact h
  simp only [h2, Bool.false_eq_true, if_false]
  have step : ∀ w', stateMarkerLinked w' →
      stateMarkerLinked ((match env.resolve opts.parentRef with
        | none => (w', Except.error "failed to get parent commit hash")
        | some parentCommit =>
          match env.currentBranch with
          | none => (w', Except.error "failed to get current branch")
          | some currentBranch =>
            match getCommitsToReparent env opts with
            | .error e => (w', Except.error ("failed to get commits to reparent: " ++ e))
            | .ok commits =>
              if commits = [] then (w', Except.error "no commits to reparent")
              else if opts.shouldConfirm ∧ env.confirmResponse.toLower ≠ "y" ∧
                  env.confirmResponse.toLower ≠ "yes" then (w', Except.ok ())
              else if env.checkoutCommitOk parentCommit then
                saveAndReplay env commits currentBranch opts.noBranch
                  (stamp { w' with head := parentCommit } (.checkoutCommit parentCommit))
              else (w', Except.error "failed to checkout parent commit")).1) := by
    intro w' h'
    cases env.resolve opts.parentRef with
    | none => exact h'
    | some p =>
      cases env.currentBranch with
      | none => exact h'
      | some br =>
        cases getCommitsToReparent env opts with
        | error e => exact h'
        | ok commits =>
          by_cases hne : commits = []
          · simp only [hne, if_true]
            exact h'
          simp only [hne, if_false]
          by_cases hcf : opts.shouldConfirm ∧ env.confirmResponse.toLower ≠ "y" ∧
              env.confirmResponse.toLower ≠ "yes"
          · rw [if_pos hcf]
            exact h'
          rw [if_neg hcf]
          by_cases hck : env.checkoutCommitOk p = true
          · simp only [hck, if_true]
            exact saveAndReplay_linked env commits br opts.noBranch _ h'
          · simp only [hck, Bool.false_eq_true, if_false]
            exact h'
  by_cases hb : opts.shouldBackup = true
  · by_cases hbo : env.backupOk = true
    · simp only [hb, hbo, if_true]
      exact step (stamp w .backup) h
    · simp only [hb, if_true, hbo, Bool.false_eq_true, if_false]
      exact h
  · simp only [hb, Bool.false_eq_true, if_false]
    exact step w h

theorem handleContinue_linked (env : Env) (w : World) (h : stateMarkerLinked w) :
    stateMarkerLinked (handleContinue env w).1 := by
  unfold handleContinue
  by_cases hip : (!isReparentInProgress env w) = true
  · simp only [hip, if_true]
    exact h
  simp only [hip, Bool.false_eq_true, if_false]
  cases hld : loadReparentState env w with
  | error e => exact h
  | ok st =>
    have tail : ∀ w', stateMarkerLinked w' →
        stateMarkerLinked ((match replayAndFinish env st.remainingCommits st.originalBranch
            st.noBranch w' with
          | (w'', .error _) => (w'', 1)
          | (w'', .ok _) => (w'', 0)).1) := by
      intro w' h'
      have hf := replayAndFinish_linked env st.remainingCommits st.originalBranch st.noBranch w' h'
      rcases hr : replayAndFinish env st.remainingCommits st.originalBranch st.noBranch w'
        with ⟨wf, rf⟩
      rw [hr] at hf
      cases rf with
      | error e => exact hf
      | ok u => exact hf
    by_cases hcp : env.cherryPickInProgress = true
    · by_cases hok : env.continuePickOk = true
      · simp only [hcp, hok, if_true]
        exact tail (stamp w .continuePick) h
      · simp only [hcp, if_true, hok, Bool.false_eq_true, if_false]
        exact h
    · simp only [hcp, Bool.false_eq_true, if_false]
      exact tail w h

theorem handleAbort_linked (env : Env) (w : World) (h : stateMarkerLinked w) :
    stateMarkerLinked (handleAbort env w).1 := by
  unfold handleAbort
  by_cases hip : (!isReparentInProgress env w) = true
  · simp only [hip, if_true]
    exact h
  simp only [hip, Bool.false_eq_true, if_false]
  cases hld : loadReparentState env w with
  | error e => exact h
  | ok st =>
    by_cases hcp : env.cherryPickInProgress = true
    · simp only [hcp, if_true]
      by_cases hco : env.checkoutBranchOk st.originalBranch = true
      · simp only [hco, if_true]
        exact cleanupReparentState_linked env _ h
      · simp only [hco, Bool.false_eq_true, if_false]
        exact h
    · simp only [hcp, Bool.false_eq_true, if_false]
      by_cases hco : env.checkoutBranchOk st.originalBranch = true
      · simp only [hco, if_true]
        exact cleanupReparentState_linked env _ h
      · simp only [hco, Bool.false_eq_true, if_false]
        exact h

theorem handleContinue_replays_rest (env' : Env) (rest : List Str) (br : Str) (nb : Bool)
    (W : World)
    (hgd' : env'.gitDirOk = true) (hcp' : env'.cherryPickInProgress = false)
    (hmk : W.marker.isSome = true)
    (hsf : W.stateFile = some (renderState rest br nb))
    (hbr : '\n' ∉ br) (hwfr : ∀ x ∈ rest, goodCommitId x)
    (hrest : ∀ x ∈ rest, ∃ nh, env'.pick x = .ok nh) :
    picksOf (handleContinue env' W).1.trace = picksOf W.trace ++ rest := by
  unfold handleContinue
  have hip : isReparentInProgress env' W = true := by
    simp [isReparentInProgress, hgd', hmk]
  have hload : loadReparentState env' W = .ok ⟨rest, br, nb⟩ := by
    simp [loadReparentState, hgd', hsf, parse_renderState rest br nb hbr hwfr]
  simp only [hip, Bool.not_true, Bool.false_eq_true, if_false, hload, hcp']
  obtain ⟨hd₂, happ⟩ := applyCherryPicks_ok env' rest hrest W
  obtain ⟨t, ht, hpt⟩ := finishReparent_trace env' br nb
    ⟨W.stateFile, W.marker, hd₂, W.trace ++ rest.map .cherryPick⟩
  rcases hfin : finishReparent env' br nb
    ⟨W.stateFile, W.marker, hd₂, W.trace ++ rest.map .cherryPick⟩ with ⟨wf, rf⟩
  rw [hfin] at ht
  simp only at ht
  simp only [replayAndFinish, happ, hfin]
  cases rf with
  | error e => simp [ht, hpt, picksOf_map_cherryPick]
  | ok u => simp [ht, hpt, picksOf_map_cherryPick]

/-- C1: when replay of a planned list conflicts on the k-th commit (all
earlier ones applying cleanly), the persisted remaining list is exactly
the commits after the conflicting one, in the same oldest-first order
(n − k of them), and a subsequent continue replays exactly that list in
that order. -/
theorem c1_conflict_persists_tail_and_continue_replays_it
    (env env' : Env) (done rest : List Str) (c br : Str) (nb : Bool) (w : World)
    (hgd : env.gitDirOk = true)
    (hsf : w.stateFile = some (renderState (done ++ c :: rest) br nb))
    (hdone : ∀ d ∈ done, ∃ nh, env.pick d = .ok nh)
    (hconf : env.pick c = .conflict)
    (hbr : '\n' ∉ br)
    (hwf : ∀ x ∈ done ++ c :: rest, goodCommitId x)
    (hgd' : env'.gitDirOk = true)
    (hcp' : env'.cherryPickInProgress = false)
    (hrest : ∀ x ∈ rest, ∃ nh, env'.pick x = .ok nh) :
    ∃ w', applyCherryPicks env (done ++ c :: rest) w =
        (w', .error "cherry-pick conflicts require manual resolution")
      ∧ w'.stateFile = some (renderState rest br nb)
      ∧ parseReparentState (renderState rest br nb) = ⟨rest, br, nb⟩
      ∧ rest.length = (done ++ c :: rest).length - (done.length + 1)
      ∧ picksOf (handleContinue env' w').1.trace = picksOf w'.trace ++ rest := by
  have hwfr : ∀ x ∈ rest, goodCommitId x := fun x hx => hwf x (by simp [hx])
  obtain ⟨hd, hsplit⟩ := applyCherryPicks_append_ok env done hdone (c :: rest) w
  have hconfl := applyCherryPicks_conflict_head env c rest (done ++ c :: rest) br nb
    ⟨w.stateFile, w.marker, hd, w.trace ++ done.map .cherryPick⟩ hgd hconf (by simpa using hsf)
    hbr hwf
  rw [hconfl] at hsplit
  refine ⟨_, hsplit, rfl, parse_renderState rest br nb hbr hwfr, ?_, ?_⟩
  · rw [List.length_append, List.length_cons]
    omega
  · exact handleContinue_replays_rest env' rest br nb _ hgd' hcp' rfl rfl hbr hwfr hrest

/-- C2: every start that reaches the mutation phase first checks out
the target ancestor detached, then persists the plan (state file plus
marker recording the new base) and only then replays the first commit;
the only possible earlier action is the optional backup, so no branch
mutation precedes the checkout. -/
theorem c2_checkout_then_persist_then_replay
    (env : Env) (opts : ReparentOptions) (w : World) (p br c1 : Str) (cs : List Str)
    (h1 : env.hasUncommitted = false)
    (h2 : env.refExists opts.parentRef = true)
    (hbk : opts.shouldBackup = true → env.backupOk = true)
    (h4 : env.resolve opts.parentRef = some p)
    (h5 : env.currentBranch = some br)
    (h6 : getCommitsToReparent env opts = .ok (c1 :: cs))
    (h7 : opts.shouldConfirm = true →
      env.confirmResponse.toLower = "y" ∨ env.confirmResponse.toLower = "yes")
    (h8 : env.checkoutCommitOk p = true)
    (h9 : env.gitDirOk = true) :
    ∃ t, (runReparent env opts w).1.trace =
      w.trace ++ (if opts.shouldBackup then [GitAction.backup] else []) ++
        [.checkoutCommit p, .writeState (renderState (c1 :: cs) br opts.noBranch),
         .writeMarker p, .cherryPick c1] ++ t := by
  rw [runReparent_reaches_replay env opts w p br (c1 :: cs) h1 h2 hbk h4 h5 h6
    (by simp) h7 h8 h9]
  obtain ⟨t, ht⟩ := replayAndFinish_cons_trace env c1 cs br opts.noBranch
    ⟨some (renderState (c1 :: cs) br opts.noBranch), some (p ++ ['\n']), p,
      w.trace ++ (if opts.shouldBackup then [GitAction.backup] else []) ++
        [.checkoutCommit p, .writeState (renderState (c1 :: cs) br opts.noBranch),
         .writeMarker p]⟩
  refine ⟨t, ?_⟩
  rw [ht]
  simp [List.append_assoc]

/-- C7: start never consults the persisted state: from any pre-existing
state file and marker whatsoever, a start whose own preconditions pass
proceeds (here into a conflict suspension on the first commit) and
overwrites the single global slot with its own plan and marker. -/
theorem c7_start_ignores_existing_state
    (env : Env) (opts : ReparentOptions) (p br c1 : Str) (cs : List Str)
    (h1 : env.hasUncommitted = false)
    (h2 : env.refExists opts.parentRef = true)
    (hbk : opts.shouldBackup = true → env.backupOk = true)
    (h4 : env.resolve opts.parentRef = some p)
    (h5 : env.currentBranch = some br)
    (h6 : getCommitsToReparent env opts = .ok (c1 :: cs))
    (h7 : opts.shouldConfirm = true →
      env.confirmResponse.toLower = "y" ∨ env.confirmResponse.toLower = "yes")
    (h8 : env.checkoutCommitOk p = true)
    (h9 : env.gitDirOk = true)
    (hpick : env.pick c1 = .conflict)
    (hbr : '\n' ∉ br)
    (hwf : ∀ x ∈ c1 :: cs, goodCommitId x)
    (s m : Option Str) (h0 : Str) (tr : List GitAction) :
    ∃ w', runReparent env opts ⟨s, m, h0, tr⟩ =
        (w', .error "cherry-pick conflicts require manual resolution")
      ∧ w'.stateFile = some (renderState cs br opts.noBranch)
      ∧ w'.marker = some (p ++ ['\n']) := by
  rw [runReparent_reaches_replay env opts ⟨s, m, h0, tr⟩ p br (c1 :: cs) h1 h2 hbk h4 h5 h6
    (by simp) h7 h8 h9]
  unfold replayAndFinish
  dsimp only
  rw [applyCherryPicks_conflict_head env c1 cs (c1 :: cs) br opts.noBranch
    ⟨some (renderState (c1 :: cs) br opts.noBranch), some (p ++ ['\n']), p,
      tr ++ (if opts.shouldBackup then [GitAction.backup] else []) ++
        [GitAction.checkoutCommit p,
         GitAction.writeState (renderState (c1 :: cs) br opts.noBranch),
         GitAction.writeMarker p]⟩ h9 hpick rfl hbr hwf]
  exact ⟨_, rfl, rfl, rfl⟩

/-- C3 (amended): continue with an already-empty remaining list is
accepted whenever the persisted state and marker still exist: it
replays nothing and completes the branch move and checkout, exiting 0.
(After a finalization failure this state no longer exists — see the
counterexample — so that rerun is then rejected.) -/
theorem c3_amended_empty_continue_finalizes
    (env : Env) (w : World) (br mk : Str) (content : Str)
    (hgd : env.gitDirOk = true)
    (hmk : w.marker = some mk)
    (hsf : w.stateFile = some content)
    (hparse : parseReparentState content = ⟨[], br, false⟩)
    (hcp : env.cherryPickInProgress = false)
    (hmv : env.moveBranchOk br w.head = true)
    (hco : env.checkoutBranchOk br = true) :
    handleContinue env w =
      (⟨none, none, w.head, w.trace ++ [.removeState, .removeMarker,
        .moveBranch br w.head, .checkoutBranch br]⟩, 0) := by
  have hip : isReparentInProgress env w = true := by
    simp [isReparentInProgress, hgd, hmk]
  have hload : loadReparentState env w = .ok ⟨[], br, false⟩ := by
    simp [loadReparentState, hgd, hsf, hparse]
  unfold handleContinue
  simp only [hip, Bool.not_true, Bool.false_eq_true, if_false, hload, hcp]
  simp only [replayAndFinish, applyCherryPicks]
  simp only [finishReparent, cleanupReparentState, hgd, if_true, hsf,
    removeReparentHead, stamp, hmk]
  simp [hmv, hco, stamp, List.append_assoc]

/-- C4: every command execution preserves the invariant that the state
file exists exactly when the marker exists; since both are created
together by save and removed together by cleanup, no reachable
terminal state has one without the other. -/
theorem c4_state_and_marker_together (env : Env) (argv : List String) (w : World)
    (h : stateMarkerLinked w) : stateMarkerLinked (mainRun env argv w).1 := by
  unfold mainRun
  by_cases hg : (!env.isGitRepo) = true
  · simp only [hg, if_true]
    exact h
  simp only [hg, Bool.false_eq_true, if_false]
  by_cases hc : argv.head? = some "--continue"
  · rw [if_pos hc]
    exact handleContinue_linked env w h
  rw [if_neg hc]
  by_cases ha : argv.head? = some "--abort"
  · rw [if_pos ha]
    exact handleAbort_linked env w h
  rw [if_neg ha]
  cases parseArgs argv with
  | help => exact h
  | err msg => exact h
  | ok opts =>
    dsimp only
    have hr := runReparent_linked env opts w h
    rcases hrr : runReparent env opts w with ⟨wr, rr⟩
    rw [hrr] at hr
    cases rr with
    | error e => exact hr
    | ok u => exact hr

/-- C5 (amended): an empty computed commit range makes start fail with
the error "no commits to reparent" and exit code 1 — not a benign
exit-0 no-op — though indeed with no state written and no mutation
performed (the world is returned unchanged). -/
theorem c5_amended_empty_range_is_fatal
    (env : Env) (opts : ReparentOptions) (w : World) (argv : List String) (p br : Str)
    (h1 : env.hasUncommitted = false)
    (h2 : env.refExists opts.parentRef = true)
    (h3 : opts.shouldBackup = false)
    (h4 : env.resolve opts.parentRef = some p)
    (h5 : env.currentBranch = some br)
    (h6 : getCommitsToReparent env opts = .ok [])
    (hgit : env.isGitRepo = true)
    (hargv : parseArgs argv = .ok opts)
    (hc : argv.head? ≠ some "--continue")
    (ha : argv.head? ≠ some "--abort") :
    runReparent env opts w = (w, .error "no commits to reparent") ∧
    mainRun env argv w = (w, 1) := by
  have hrun : runReparent env opts w = (w, .error "no commits to reparent") := by
    simp [runReparent, h1, h2, h3, h4, h5, h6]
  refine ⟨hrun, ?_⟩
  unfold mainRun
  rw [if_neg (by simp [hgit]), if_neg hc, if_neg ha]
  simp only [hargv, hrun]

/-- C6: the input "--parent p --number 1 --from x" supplies both
`--number` and `--from` yet is accepted by the argument parser,
because the mutual-exclusion check compares the commit count against
its default value 1; a non-default count with `--from` is rejected. -/
theorem c6_number_one_with_from_accepted :
    parseArgs ["--parent", "p", "--number", "1", "--from", "x"] =
      .ok { parentRef := "p", numberOfCommits := 1, fromRef := "x",
            shouldBackup := false, shouldConfirm := false, noBranch := false } ∧
    parseArgs ["--parent", "p", "--number", "2", "--from", "x"] =
      .err "cannot specify both --number and --from" := by
  constructor
  · decide
  · decide

/-- C8 (amended): loading never fails on the content of a present
state file: any content parses into a state (unrecognised lines are
ignored and missing fields keep zero values), so corrupted content is
not detected as an error. -/
theorem c8_amended_any_content_loads
    (env : Env) (w : World) (content : Str)
    (hgd : env.gitDirOk = true) (hsf : w.stateFile = some content) :
    loadReparentState env w = .ok (parseReparentState content) := by
  simp [loadReparentState, hgd, hsf]

/-- C9 (amended): saving a plan and immediately loading it returns the
same branch name, no-branch flag and commit list in order, provided
the branch name is newline free and each commit id is non-empty,
newline free, does not start with "ORIGINAL_BRANCH=" or "NO_BRANCH="
and is not the literal "COMMITS=". -/
theorem c9_amended_save_load_roundtrip
    (env : Env) (commits : List Str) (branch : Str) (nb : Bool) (w : World)
    (hgd : env.gitDirOk = true) (hbr : '\n' ∉ branch)
    (hwf : ∀ c ∈ commits, goodCommitId c) :
    loadReparentState env (saveReparentState env commits branch nb w).1 =
      .ok ⟨commits, branch, nb⟩ := by
  simp [saveReparentState, createReparentHead, hgd, stamp, loadReparentState,
    parse_renderState commits branch nb hbr hwf]

/-- C10: when abort cannot check out the recorded original branch it
exits 1 before clearing anything: the state file and the marker are
left exactly as they were, so abort can be retried. -/
theorem c10_abort_failure_keeps_state
    (env : Env) (w : World) (content : Str)
    (hgd : env.gitDirOk = true) (hmk : w.marker.isSome = true)
    (hsf : w.stateFile = some content)
    (hco : env.checkoutBranchOk (parseReparentState content).originalBranch = false) :
    handleAbort env w =
      ((if env.cherryPickInProgress then stamp w .abortPick else w), 1) ∧
    (handleAbort env w).1.stateFile = w.stateFile ∧
    (handleAbort env w).1.marker = w.marker := by
  have hip : isReparentInProgress env w = true := by
    simp [isReparentInProgress, hgd, hmk]
  have hload : loadReparentState env w = .ok (parseReparentState content) := by
    simp [loadReparentState, hgd, hsf]
  have hmain : handleAbort env w =
      ((if env.cherryPickInProgress then stamp w .abortPick else w), 1) := by
    unfold handleAbort
    simp only [hip, Bool.not_true, Bool.false_eq_true, if_false, hload]
    cases hcp : env.cherryPickInProgress with
    | false => simp [hco]
    | true => simp [hco]
  refine ⟨hmain, ?_, ?_⟩ <;> rw [hmain] <;> cases env.cherryPickInProgress <;> simp [stamp]

/-- A concrete world with no persisted state. -/
def w0 : World := ⟨none, none, "h0".toList, []⟩

/-- A concrete options value: reparent onto "p" with the defaults. -/
def optsP : ReparentOptions := { parentRef := "p" }

/-- A concrete well-behaved environment: clean tree, parent "p"
resolving to commit "pc", a three-commit range, every pick succeeding. -/
def envBase : Env where
  isGitRepo := true
  gitDirOk := true
  hasUncommitted := false
  refExists := fun _ => true
  resolve := fun r => if r = "p" then some "pc".toList else none
  currentBranch := some "main".toList
  commitRange := fun _ => some ["c1".toList, "c2".toList, "c3".toList]
  pick := fun _ => .ok "nh".toList
  cherryPickInProgress := false
  continuePickOk := true
  abortPickOk := true
  moveBranchOk := fun _ _ => true
  checkoutBranchOk := fun _ => true
  checkoutCommitOk := fun _ => true
  backupOk := true
  confirmResponse := ""

/-- Environment in which the branch force-move fails (finalization
failure after all commits replayed). -/
def envMoveFail : Env := { envBase with moveBranchOk := fun _ _ => false }

/-- Environment whose commit range is empty. -/
def envEmptyRange : Env := { envBase with commitRange := fun _ => some [] }

/-- Environment in which commit "c2" conflicts and every other commit
applies cleanly. -/
def envConflictC2 : Env :=
  { envBase with pick := fun c => if c = "c2".toList then .conflict else .ok ("n".toList ++ c) }

/-- Environment in which every cherry-pick conflicts. -/
def envAllConflict : Env := { envBase with pick := fun _ => .conflict }

/-- Environment in which checking out a branch fails. -/
def envCheckoutFail : Env := { envBase with checkoutBranchOk := fun _ => false }

/-- World as left by a start that saved the three-commit plan anchored
at parent commit "pc". -/
def wSaved : World :=
  ⟨some (renderState ["c1".toList, "c2".toList, "c3".toList] "main".toList false),
   some ("pc".toList ++ ['\n']), "pc".toList, []⟩

/-- World whose persisted plan has an empty remaining list. -/
def wEmptyPlan : World :=
  ⟨some (renderState [] "main".toList false), some "mk".toList, "tip".toList, []⟩

/-- World whose state file holds unparseable garbage. -/
def wGarbageState : World :=
  ⟨some "garbage".toList, some "g".toList, "h0".toList, []⟩

/-- Suspended world with one remaining commit. -/
def wSuspended : World :=
  ⟨some (renderState ["c3".toList] "main".toList false), some ("x".toList ++ ['\n']),
   "x".toList, []⟩

/-- C3 counterexample: when finalization fails after all commits have
replayed (the branch move fails), the persisted state and marker are
already gone, so rerunning continue is rejected as "no reparent in
progress" (exit 1) instead of completing the branch move. -/
theorem c3_counterexample_finalization_failure_not_continuable :
    (mainRun envMoveFail ["--parent", "p"] w0).2 = 1 ∧
    (mainRun envMoveFail ["--parent", "p"] w0).1.stateFile = none ∧
    (mainRun envMoveFail ["--parent", "p"] w0).1.marker = none ∧
    isReparentInProgress envBase (mainRun envMoveFail ["--parent", "p"] w0).1 = false ∧
    (handleContinue envBase (mainRun envMoveFail ["--parent", "p"] w0).1).2 = 1 :=
  ⟨rfl, rfl, rfl, rfl, rfl⟩

/-- C5 counterexample: with an empty computed range, start exits with
code 1 (an error), not 0, though the world is untouched. -/
theorem c5_counterexample_empty_range_exits_one :
    mainRun envEmptyRange ["--parent", "p"] w0 = (w0, 1) := rfl

/-- C8 counterexample: the content "garbage" (matching no element of
the layout) loads without error, yielding the zero-value state. -/
theorem c8_counterexample_garbage_loads_ok :
    loadReparentState envBase wGarbageState = .ok ⟨[], [], false⟩ := rfl

/-- C9 counterexample: the commit id "NO_BRANCH=true" is non-empty and
newline free, yet saving a plan containing it and loading back yields
a different plan (the id is consumed as a key line, flipping the
no-branch flag and dropping the commit). -/
theorem c9_counterexample_roundtrip_fails :
    loadReparentState envBase (saveReparentState envBase ["NO_BRANCH=true".toList]
        "b".toList false w0).1 = .ok ⟨[], "b".toList, true⟩ ∧
    (⟨[], "b".toList, true⟩ : ReparentState) ≠
      ⟨["NO_BRANCH=true".toList], "b".toList, false⟩ :=
  ⟨rfl, by decide⟩

/-- Witness for C1 at a concrete three-commit plan conflicting on the
second commit. -/
theorem c1_witness :
    ∃ w', applyCherryPicks envConflictC2
        (["c1".toList] ++ "c2".toList :: ["c3".toList]) wSaved =
        (w', .error "cherry-pick conflicts require manual resolution")
      ∧ w'.stateFile = some (renderState ["c3".toList] "main".toList false)
      ∧ parseReparentState (renderState ["c3".toList] "main".toList false) =
          ⟨["c3".toList], "main".toList, false⟩
      ∧ (["c3".toList] : List Str).length =
          ((["c1".toList] : List Str) ++ "c2".toList :: ["c3".toList]).length -
            ((["c1".toList] : List Str).length + 1)
      ∧ picksOf (handleContinue envBase w').1.trace = picksOf w'.trace ++ ["c3".toList] :=
  c1_conflict_persists_tail_and_continue_replays_it envConflictC2 envBase
    ["c1".toList] ["c3".toList] "c2".toList "main".toList false wSaved
    rfl rfl
    (fun d hd => ⟨"n".toList ++ d, by
      obtain rfl := List.mem_singleton.mp hd
      rfl⟩)
    rfl (by decide) (by decide) rfl rfl
    (fun x hx => ⟨"nh".toList, rfl⟩)

/-- Witness for C2 at the concrete base environment. -/
theorem c2_witness :
    ∃ t, (runReparent envBase optsP w0).1.trace =
      w0.trace ++ (if optsP.shouldBackup then [GitAction.backup] else []) ++
        [.checkoutCommit "pc".toList,
         .writeState (renderState ["c1".toList, "c2".toList, "c3".toList]
           "main".toList optsP.noBranch),
         .writeMarker "pc".toList, .cherryPick "c1".toList] ++ t :=
  c2_checkout_then_persist_then_replay envBase optsP w0 "pc".toList "main".toList
    "c1".toList ["c2".toList, "c3".toList] rfl rfl (fun h => nomatch h) rfl rfl rfl
    (fun h => nomatch h) rfl rfl

/-- Witness for the amended C3: continue on an empty remaining plan
completes the branch move and exits 0. -/
theorem c3_witness :
    handleContinue envBase wEmptyPlan =
      (⟨none, none, wEmptyPlan.head, wEmptyPlan.trace ++ [.removeState, .removeMarker,
        .moveBranch "main".toList wEmptyPlan.head, .checkoutBranch "main".toList]⟩, 0) :=
  c3_amended_empty_continue_finalizes envBase wEmptyPlan "main".toList "mk".toList
    (renderState [] "main".toList false) rfl rfl rfl (by decide) rfl rfl rfl

/-- Witness for C4 on a concrete run. -/
theorem c4_witness :
    stateMarkerLinked w0 ∧ stateMarkerLinked (mainRun envBase ["--parent", "p"] w0).1 :=
  ⟨by decide, c4_state_and_marker_together envBase ["--parent", "p"] w0 (by decide)⟩

/-- Witness for the amended C5 at a concrete empty-range environment. -/
theorem c5_witness :
    runReparent envEmptyRange optsP w0 = (w0, .error "no commits to reparent") ∧
    mainRun envEmptyRange ["--parent", "p"] w0 = (w0, 1) :=
  c5_amended_empty_range_is_fatal envEmptyRange optsP w0 ["--parent", "p"]
    "pc".toList "main".toList rfl rfl rfl rfl rfl rfl rfl (by decide) (by decide) (by decide)

/-- Witness for C7: start from a world already holding foreign state
and marker content proceeds and overwrites both. -/
theorem c7_witness :
    ∃ w', runReparent envAllConflict optsP
        ⟨some "old".toList, some "oldmk".toList, "h0".toList, []⟩ =
        (w', .error "cherry-pick conflicts require manual resolution")
      ∧ w'.stateFile = some (renderState ["c2".toList, "c3".toList]
          "main".toList optsP.noBranch)
      ∧ w'.marker = some ("pc".toList ++ ['\n']) :=
  c7_start_ignores_existing_state envAllConflict optsP "pc".toList "main".toList
    "c1".toList ["c2".toList, "c3".toList] rfl rfl (fun h => nomatch h) rfl rfl rfl
    (fun h => nomatch h) rfl rfl rfl (by decide) (by decide)
    (some "old".toList) (some "oldmk".toList) "h0".toList []

/-- Witness for the amended C8 at the garbage-content world. -/
theorem c8_witness :
    loadReparentState envBase wGarbageState =
      .ok (parseReparentState "garbage".toList) :=
  c8_amended_any_content_loads envBase wGarbageState "garbage".toList rfl rfl

/-- Witness for the amended C9 at a concrete two-commit plan. -/
theorem c9_witness :
    loadReparentState envBase (saveReparentState envBase
        ["aaa1".toList, "bbb2".toList] "main".toList true w0).1 =
      .ok ⟨["aaa1".toList, "bbb2".toList], "main".toList, true⟩ :=
  c9_amended_save_load_roundtrip envBase ["aaa1".toList, "bbb2".toList]
    "main".toList true w0 rfl (by decide) (by decide)

/-- Witness for C10 at a concrete suspended world whose branch
checkout fails. -/
theorem c10_witness :
    handleAbort envCheckoutFail wSuspended =
      ((if envCheckoutFail.cherryPickInProgress then stamp wSuspended .abortPick
        else wSuspended), 1) ∧
    (handleAbort envCheckoutFail wSuspended).1.stateFile = wSuspended.stateFile ∧
    (handleAbort envCheckoutFail wSuspended).1.marker = wSuspended.marker :=
  c10_abort_failure_keeps_state envCheckoutFail wSuspended
    (renderState ["c3".toList] "main".toList false) rfl rfl rfl rfl
